import Mathlib

/-!
Verification of the quiz-bot round lifecycle, lifelines and scheduler
(shallow embedding of `src/main.py`).

Conventions of the embedding:
* Python `dict`s with insertion-order semantics are embedded as association
  lists (`List (κ × ν)`), with first-match lookup (`dictGet`), in-place update
  (`dsetI`) and key-append on fresh insert, matching CPython behaviour.
* Timestamps (`datetime.datetime.utcnow()`) are embedded as `Int` seconds;
  dates as opaque values (`Int` day index or ISO `String`).
* `random.choice(seq)` is embedded by an explicit index parameter reduced
  modulo `seq.length`; `random.shuffle` of a two-element list by a `Bool`
  saying whether the pair was swapped.
* Answer labels are embedded as `String`s exactly as in the source, which
  stores `"A"`/`"B"`/`"C"`/`"D"` in `state.answers`.
-/

/-- First-match lookup in an association list (CPython `dict.get`;
keys are unique in every dict the program builds, so first-match agrees
with dict semantics). -/
def dictGet {κ ν : Type} [DecidableEq κ] (m : List (κ × ν)) (k : κ) : Option ν :=
  match m with
  | [] => none
  | (k₂, v) :: rest => if k = k₂ then some v else dictGet rest k

/-- `dict.get(k, 0)` for integer-valued dicts. -/
def dgetI (m : List (String × Int)) (k : String) : Int :=
  (dictGet m k).getD 0

/-- `d[k] = v` on a dict: replace the existing entry in place, else append. -/
def dsetI (m : List (String × Int)) (k : String) (v : Int) : List (String × Int) :=
  match m with
  | [] => [(k, v)]
  | (k₂, v₂) :: rest => if k = k₂ then (k, v) :: rest else (k₂, v₂) :: dsetI rest k v

/-- A question from the bank (`load_questions` normalises each entry to this
shape and asserts `answer ∈ {A,B,C,D}`). -/
structure Question where
  id : Nat
  question : String
  options : List (String × String)
  answer : String
deriving DecidableEq, Inhabited, Repr

/-- `QuizState` from the source: one live round, keyed by the published
message id; `answers` maps participant id to the chosen letter. -/
structure QuizState where
  question : Question
  message_id : Nat
  end_time : Int
  answers : List (Nat × String)
deriving DecidableEq, Repr

/-- Outcome reported to the clicking user by `handle_answer_click`. -/
inductive AnswerOutcome where
  | noQuiz
  | expired
  | alreadyAnswered
  | saved
deriving DecidableEq, Repr

/-- `handle_answer_click(interaction, letter)`: look the round up in
`active_quizzes` by message id, reject when the round is gone, past its
deadline (strict `now > end_time` in the source), or the participant already
answered; otherwise record the letter.  Returns the reported outcome and the
updated `active_quizzes` table. -/
def handle_answer_click (active_quizzes : Nat → Option QuizState) (mid : Nat)
    (now : Int) (uid : Nat) (letter : String) :
    AnswerOutcome × (Nat → Option QuizState) :=
  match active_quizzes mid with
  | none => (.noQuiz, active_quizzes)
  | some state =>
    if now > state.end_time then (.expired, active_quizzes)
    else if uid ∈ state.answers.map Prod.fst then (.alreadyAnswered, active_quizzes)
    else (.saved, fun m => if m = mid then
            some { state with answers := state.answers ++ [(uid, letter)] }
          else active_quizzes m)

/-- The `active_quizzes` table holding exactly the one round `st`
(the situation the per-round reachability analysis considers). -/
def singleActive (st : QuizState) : Nat → Option QuizState :=
  fun m => if m = st.message_id then some st else none

/-- Button `A` of `QuizPersistentView` (`_a`): fixed letter `"A"`. -/
def quiz_btn_a (active : Nat → Option QuizState) (mid : Nat) (now : Int) (uid : Nat) :
    AnswerOutcome × (Nat → Option QuizState) :=
  handle_answer_click active mid now uid "A"

/-- Button `B` of `QuizPersistentView` (`_b`): fixed letter `"B"`. -/
def quiz_btn_b (active : Nat → Option QuizState) (mid : Nat) (now : Int) (uid : Nat) :
    AnswerOutcome × (Nat → Option QuizState) :=
  handle_answer_click active mid now uid "B"

/-- Button `C` of `QuizPersistentView` (`_c`): fixed letter `"C"`. -/
def quiz_btn_c (active : Nat → Option QuizState) (mid : Nat) (now : Int) (uid : Nat) :
    AnswerOutcome × (Nat → Option QuizState) :=
  handle_answer_click active mid now uid "C"

/-- Button `D` of `QuizPersistentView` (`_d`): fixed letter `"D"`. -/
def quiz_btn_d (active : Nat → Option QuizState) (mid : Nat) (now : Int) (uid : Nat) :
    AnswerOutcome × (Nat → Option QuizState) :=
  handle_answer_click active mid now uid "D"

/-- Round states reachable from a fresh round by the four answer buttons of
`QuizPersistentView`, the only code that mutates `state.answers`.  Each
constructor mirrors one button handler, which passes its fixed letter to
`handle_answer_click`. -/
inductive ReachableRound : QuizState → Prop where
  | start (q : Question) (mid : Nat) (et : Int) :
      ReachableRound (QuizState.mk q mid et [])
  | clickA (st : QuizState) (now : Int) (uid : Nat) (st₂ : QuizState)
      (hst : ReachableRound st)
      (hstep : (quiz_btn_a (singleActive st) st.message_id now uid).2 st.message_id = some st₂) :
      ReachableRound st₂
  | clickB (st : QuizState) (now : Int) (uid : Nat) (st₂ : QuizState)
      (hst : ReachableRound st)
      (hstep : (quiz_btn_b (singleActive st) st.message_id now uid).2 st.message_id = some st₂) :
      ReachableRound st₂
  | clickC (st : QuizState) (now : Int) (uid : Nat) (st₂ : QuizState)
      (hst : ReachableRound st)
      (hstep : (quiz_btn_c (singleActive st) st.message_id now uid).2 st.message_id = some st₂) :
      ReachableRound st₂
  | clickD (st : QuizState) (now : Int) (uid : Nat) (st₂ : QuizState)
      (hst : ReachableRound st)
      (hstep : (quiz_btn_d (singleActive st) st.message_id now uid).2 st.message_id = some st₂) :
      ReachableRound st₂

/-- One row of the `ranking` table as loaded by `db_load_ranking`:
`weekly`/`monthly` map ISO-date strings to award counts for that day. -/
structure UserData where
  name : String
  points : Int
  weekly : List (String × Int)
  monthly : List (String × Int)
deriving DecidableEq, Repr

/-- The leaderboard keyed by participant id (`ranking` dict, with string keys
`str(uid)`; the embedding keys directly by the numeric id since `str` is
injective on ids). -/
abbrev Ranking : Type := Nat → Option UserData

/-- Body of the per-winner loop of `conclude_quiz`: refresh the display name,
add 1 to `points` and 1 to today's entry of both `weekly` and `monthly`. -/
def award_winner (today : String) (names : Nat → String) (ranking : Ranking)
    (uid : Nat) : Ranking :=
  let name := names uid
  let d := (ranking uid).getD (UserData.mk name 0 [] [])
  let d₂ : UserData :=
    { name := name
      points := d.points + 1
      weekly := dsetI d.weekly today (dgetI d.weekly today + 1)
      monthly := dsetI d.monthly today (dgetI d.monthly today + 1) }
  fun u => if u = uid then some d₂ else ranking u

/-- `winners` as computed in `conclude_quiz`:
`[uid for uid, letter in state.answers.items() if letter == correct]`. -/
def winners (state : QuizState) : List Nat :=
  (state.answers.filter (fun p => p.2 = state.question.answer)).map Prod.fst

/-- The state `conclude_quiz` reads and writes: the `finished_messages`
double-close guard and the persisted leaderboard (the source loads the
leaderboard from the store at the start of the tally and saves it at the
end; the embedding keeps it as a field). -/
structure CloseState where
  finished_messages : List Nat
  ranking : Ranking

/-- `conclude_quiz(channel, state)`: return immediately when the round's
message id is already in `finished_messages`; otherwise mark it finished and
award every winner one point (plus today's weekly/monthly count, refreshing
the display name). -/
def conclude_quiz (today : String) (names : Nat → String) (cs : CloseState)
    (state : QuizState) : CloseState :=
  if state.message_id ∈ cs.finished_messages then cs
  else
    { finished_messages := state.message_id :: cs.finished_messages
      ranking := (winners state).foldl (award_winner today names) cs.ranking }

/-- `random.choice(wrong)` then `random.shuffle(kept)` of `_btn_5050` /
`slash_polnapol`: `pick` indexes the surviving wrong label (reduced modulo
the number of wrong labels), `swapped` says whether the shuffle reversed the
two-element list. -/
def kept_5050 (correct : String) (pick : Nat) (swapped : Bool) : List String :=
  let wrong := ["A", "B", "C", "D"].filter (fun x => x ≠ correct)
  let kept := [correct, wrong.getD (pick % wrong.length) correct]
  if swapped then kept.reverse else kept

/-- The fifty-fifty handler applied to a live round: computes the surviving
pair from the round's correct answer and leaves the round state untouched
(the source never writes to `state` here). -/
def btn_5050 (st : QuizState) (pick : Nat) (swapped : Bool) :
    List String × QuizState :=
  (kept_5050 st.question.answer pick swapped, st)

/-- Per-label occurrence count: the effect of
`for letter in state.answers.values(): if letter in counts: counts[letter] += 1`
on one key. -/
def countLabel (answers : List (Nat × String)) (k : String) : Nat :=
  (answers.filter (fun p => p.2 = k)).length

/-- The `counts` dict of `_btn_audience` / `slash_publika`. -/
def audience_counts (answers : List (Nat × String)) : List (String × Nat) :=
  [("A", countLabel answers "A"), ("B", countLabel answers "B"),
   ("C", countLabel answers "C"), ("D", countLabel answers "D")]

/-- `total = sum(counts.values()) or 1`. -/
def audience_total (answers : List (Nat × String)) : Nat :=
  let t := (audience_counts answers).foldl (fun s p => s + p.2) 0
  if t = 0 then 1 else t

/-- Python's builtin `round(a / b)` for `b > 0` (nearest integer, ties to
even), computed in exact integer arithmetic: `a / b` here is the floor
quotient and `a % b` the remainder, and the tie test compares `2 * (a % b)`
with `b`.  This embeds `round(v * 100 / total)` of the source (the float
quotient is exact at every tie point that can arise here, so the
exact-rational reading is faithful). -/
def round_div (a b : Int) : Int :=
  let q := a / b
  let r := a % b
  if 2 * r < b then q
  else if b < 2 * r then q + 1
  else if q % 2 = 0 then q else q + 1

/-- `perc = {k: round(v * 100 / total) for k, v in counts.items()}`. -/
def audience_perc (answers : List (Nat × String)) : List (String × Int) :=
  (audience_counts answers).map
    (fun p => (p.1, round_div ((p.2 : Int) * 100) (audience_total answers : Int)))

/-- The audience handler applied to a live round: computes the percentage
table and leaves the round state untouched (read-only over `answers`). -/
def btn_audience (st : QuizState) : List (String × Int) × QuizState :=
  (audience_perc st.answers, st)

/-- `COOLDOWN_HOURS = 168`. -/
def COOLDOWN_HOURS : Int := 168

/-- `_cooldown_remaining(last_used, hours)` in seconds:
`(last_used + timedelta(hours=hours)) - utcnow()`. -/
def cooldown_remaining (last_used : Int) (hours : Int) (now : Int) : Int :=
  last_used + hours * 3600 - now

/-- `lifeline_check_cooldown`: `some remaining` when the most recent use is
still inside the window (`remaining > 0`), else `none` (usable). -/
def lifeline_check_cooldown (lastUsed : Option Int) (now : Int) : Option Int :=
  match lastUsed with
  | none => none
  | some last =>
    let rem := cooldown_remaining last COOLDOWN_HOURS now
    if rem > 0 then some rem else none

/-- One row inserted into `lifelines_usage` by `db_lifeline_mark_use`. -/
structure CooldownRecord where
  user_id : Nat
  lifeline_type : String
  used_at : Int
deriving DecidableEq, Repr

/-- Outcome of a phone-a-friend invocation (`slash_telefon` /
`PhoneFriendSelectView._on_select`). -/
inductive PhoneOutcome where
  | noActive
  | roundExpired
  | onCooldown (remaining : Int)
  | unavailable
  | revealed (letter : String)
deriving DecidableEq, Repr

/-- `slash_telefon`: guard on a live, unexpired round and a clear cooldown,
then look the target up in `answers`.  A missing (or falsy, i.e. empty)
letter reports "unavailable" and writes nothing; a recorded letter is
revealed and exactly one `lifelines_usage` row dated `now` is inserted for
the caller.  The second component is the list of rows written. -/
def slash_telefon (state : Option QuizState) (now : Int)
    (caller_id friend_id : Nat) (lastUsed : Option Int) :
    PhoneOutcome × List CooldownRecord :=
  match state with
  | none => (.noActive, [])
  | some st =>
    if now > st.end_time then (.roundExpired, [])
    else
      match lifeline_check_cooldown lastUsed now with
      | some rem => (.onCooldown rem, [])
      | none =>
        match dictGet st.answers friend_id with
        | none => (.unavailable, [])
        | some letter =>
          if letter = "" then (.unavailable, [])
          else (.revealed letter, [CooldownRecord.mk caller_id "telefon" now])

/-- `QUIZ_DURATION_SECONDS` default (900 s = 15 min). -/
def QUIZ_DURATION_SECONDS : Int := 900

/-- The module-level mutable state `run_quiz` touches:
`last_quiz_id_per_channel` and `active_quizzes`. -/
structure GlobalState where
  last_quiz_id_per_channel : Nat → Option Nat
  active_quizzes : Nat → Option QuizState

/-- Question selection of `run_quiz`: filter the bank against the used-id
set, fall back to the whole bank when the filter is empty (after clearing
the used set), then `random.choice` (embedded as `pick` modulo the pool
size). -/
def choose_question (questions : List Question) (used : List Nat) (pick : Nat) :
    Question :=
  let available := questions.filter (fun q => !(used.contains q.id))
  let available := if available.isEmpty then questions else available
  available.getD (pick % available.length) default

/-- `run_quiz(channel)` under `quiz_lock` (the lock serialises whole calls,
so one call is one atomic step on `GlobalState`): choose a question, publish
it (the transport returns the fresh `msg_id`), overwrite the channel's
`last_quiz_id_per_channel` entry and register the new round in
`active_quizzes`.  There is no check for an existing open round on the
channel and no failure outcome. -/
def run_quiz (g : GlobalState) (channel_id : Nat) (questions : List Question)
    (used : List Nat) (pick : Nat) (msg_id : Nat) (now : Int) : GlobalState :=
  let question := choose_question questions used pick
  let end_time := now + QUIZ_DURATION_SECONDS
  { last_quiz_id_per_channel := fun c =>
      if c = channel_id then some msg_id else g.last_quiz_id_per_channel c
    active_quizzes := fun m =>
      if m = msg_id then some (QuizState.mk question msg_id end_time [])
      else g.active_quizzes m }

/-- `f"{t.hour:02d}:{t.minute:02d}"`, the key of the scheduler's per-day
fired set. -/
def fmtKey (h m : Nat) : String :=
  (if h < 10 then "0" ++ toString h else toString h) ++ ":" ++
    (if m < 10 then "0" ++ toString m else toString m)

/-- The scheduler's module-level state: `_fired_today` and
`_last_reset_date` (dates as an abstract `Int` day index). -/
structure SchedulerState where
  fired_today : List String
  last_reset_date : Option Int
deriving DecidableEq, Repr

/-- Body of the firing loop of `daily_quiz_task`, for one configured time
`t`: fire iff the tick lands inside the strict ±2-minute window around `t`
on that day and `t`'s key is not yet in the fired set; a fired slot is
marked only when the quiz channel was found (`channel_ok`).  The accumulator
carries the scheduler state and the keys for which `run_quiz` was invoked
this tick. -/
def quiz_fire_step (now_sec : Int) (channel_ok : Bool)
    (acc : SchedulerState × List String) (t : Nat × Nat) :
    SchedulerState × List String :=
  let key := fmtKey t.1 t.2
  let target : Int := (t.1 : Int) * 3600 + (t.2 : Int) * 60
  if |now_sec - target| < 120 ∧ key ∉ acc.1.fired_today then
    (if channel_ok then
      (SchedulerState.mk (key :: acc.1.fired_today) acc.1.last_reset_date,
        acc.2 ++ [key])
    else acc)
  else acc

/-- One tick of `daily_quiz_task` (the round-firing part; the alert branch
only sends messages and touches no scheduler state): reset the fired set on
date rollover, then run the firing loop over the configured times.  Returns
the new state and the keys for which `run_quiz` was invoked this tick. -/
def daily_quiz_task_tick (times : List (Nat × Nat)) (st : SchedulerState)
    (now_date : Int) (now_sec : Int) (channel_ok : Bool) :
    SchedulerState × List String :=
  let st₁ := if st.last_reset_date ≠ some now_date then
      SchedulerState.mk [] (some now_date)
    else st
  times.foldl (quiz_fire_step now_sec channel_ok) (st₁, [])

/-- Total points visible in one leaderboard slot (0 when the participant has
no row), the observation the tally claims are stated with. -/
def pointsOf (o : Option UserData) : Int :=
  ((o.map UserData.points).getD 0)

/-- Today's `weekly` daily count visible in one leaderboard slot. -/
def weeklyOf (o : Option UserData) (day : String) : Int :=
  dgetI ((o.map UserData.weekly).getD []) day

/-- Today's `monthly` daily count visible in one leaderboard slot. -/
def monthlyOf (o : Option UserData) (day : String) : Int :=
  dgetI ((o.map UserData.monthly).getD []) day

/-! ### Association-list (dict) lemmas -/

theorem dictGet_dsetI_self (m : List (String × Int)) (k : String) (v : Int) :
    dictGet (dsetI m k v) k = some v := by
  induction m with
  | nil => simp [dsetI, dictGet]
  | cons p rest ih =>
    obtain ⟨k₂, v₂⟩ := p
    by_cases h : k = k₂
    · simp [dsetI, h, dictGet]
    · simp [dsetI, h, dictGet, ih]

theorem dgetI_dsetI_self (m : List (String × Int)) (k : String) (v : Int) :
    dgetI (dsetI m k v) k = v := by
  simp [dgetI, dictGet_dsetI_self]

theorem mem_keys_of_dictGet {κ ν : Type} [DecidableEq κ] {m : List (κ × ν)}
    {k : κ} {v : ν} (h : dictGet m k = some v) : k ∈ m.map Prod.fst := by
  induction m with
  | nil => simp [dictGet] at h
  | cons p rest ih =>
    obtain ⟨k₂, v₂⟩ := p
    rw [dictGet] at h
    by_cases hk : k = k₂
    · simp [hk]
    · rw [if_neg hk] at h
      exact List.mem_cons_of_mem _ (ih h)

theorem mem_of_dictGet {κ ν : Type} [DecidableEq κ] {m : List (κ × ν)}
    {k : κ} {v : ν} (h : dictGet m k = some v) : (k, v) ∈ m := by
  induction m with
  | nil => simp [dictGet] at h
  | cons p rest ih =>
    obtain ⟨k₂, v₂⟩ := p
    rw [dictGet] at h
    by_cases hk : k = k₂
    · rw [if_pos hk] at h
      obtain rfl := Option.some.inj h
      subst hk
      exact List.mem_cons_self _ _
    · rw [if_neg hk] at h
      exact List.mem_cons_of_mem _ (ih h)

theorem dictGet_of_mem_nodup {κ ν : Type} [DecidableEq κ] {m : List (κ × ν)}
    {k : κ} {v : ν} (hnd : (m.map Prod.fst).Nodup) (h : (k, v) ∈ m) :
    dictGet m k = some v := by
  induction m with
  | nil => cases h
  | cons p rest ih =>
    obtain ⟨k₂, v₂⟩ := p
    rw [List.map_cons, List.nodup_cons] at hnd
    rcases List.mem_cons.mp h with heq | hmem
    · obtain ⟨rfl, rfl⟩ := Prod.mk.inj heq
      simp [dictGet]
    · have hk : k ≠ k₂ := by
        rintro rfl
        exact hnd.1 (List.mem_map.mpr ⟨(k, v), hmem, rfl⟩)
      rw [dictGet, if_neg hk]
      exact ih hnd.2 hmem

/-! ### Answer recording (C2, C4) -/

/-- C2 (amended): an answer is rejected with `Expired` (leaving the whole
`active_quizzes` table, hence the round's answers, unchanged) exactly when
`now` is strictly past `closes_at`; an answer arriving at `now = closes_at`
with no prior answer recorded is still accepted and recorded. -/
theorem handle_answer_click_deadline (active : Nat → Option QuizState)
    (mid : Nat) (now : Int) (uid : Nat) (letter : String) (st : QuizState)
    (hst : active mid = some st) :
    (now > st.end_time →
      handle_answer_click active mid now uid letter = (AnswerOutcome.expired, active))
    ∧ (¬ now > st.end_time → uid ∉ st.answers.map Prod.fst →
      (handle_answer_click active mid now uid letter).1 = AnswerOutcome.saved
      ∧ (handle_answer_click active mid now uid letter).2 mid =
          some { st with answers := st.answers ++ [(uid, letter)] }) := by
  constructor
  · intro h
    simp [handle_answer_click, hst, h]
  · intro h h₂
    simp [handle_answer_click, hst, h, h₂]

/-- Application of the deadline theorem at a concrete input: a round closing
at 100 rejects an answer at 101 and accepts one at 100. -/
theorem handle_answer_click_deadline_witness :
    (handle_answer_click
        (fun m => if m = 1 then some (QuizState.mk (Question.mk 1 "q" [] "A") 1 100 []) else none)
        1 101 7 "A")
      = (AnswerOutcome.expired,
          fun m => if m = 1 then some (QuizState.mk (Question.mk 1 "q" [] "A") 1 100 []) else none)
    ∧ (handle_answer_click
        (fun m => if m = 1 then some (QuizState.mk (Question.mk 1 "q" [] "A") 1 100 []) else none)
        1 100 7 "A").1 = AnswerOutcome.saved := by
  constructor
  · exact (handle_answer_click_deadline _ 1 101 7 "A" _ rfl).1 (by decide)
  · exact ((handle_answer_click_deadline _ 1 100 7 "A" _ rfl).2 (by decide) (by decide)).1

/-- C2 refutation at a concrete input: with `closes_at = 100`, an answer
arriving exactly at `now = 100` is accepted and recorded — not rejected as
`Expired`, and the answers mapping does change. -/
theorem handle_answer_click_at_deadline_counterexample :
    (handle_answer_click
        (fun m => if m = 1 then some (QuizState.mk (Question.mk 1 "q" [] "A") 1 100 []) else none)
        1 100 7 "A").1 = AnswerOutcome.saved
    ∧ (handle_answer_click
        (fun m => if m = 1 then some (QuizState.mk (Question.mk 1 "q" [] "A") 1 100 []) else none)
        1 100 7 "A").2 1 =
      some (QuizState.mk (Question.mk 1 "q" [] "A") 1 100 [(7, "A")]) := by
  constructor
  · rfl
  · rfl

/-- C4: on a live round (deadline not yet strictly passed), a second answer
click by a participant who already has a recorded label is rejected with
`AlreadyAnswered`, whatever the new letter, and the `active_quizzes` table —
in particular the first recorded label — is left unchanged. -/
theorem handle_answer_click_already_answered (active : Nat → Option QuizState)
    (mid : Nat) (now : Int) (uid : Nat) (letter : String) (st : QuizState)
    (l : String) (hst : active mid = some st) (hexp : ¬ now > st.end_time)
    (hl : dictGet st.answers uid = some l) :
    handle_answer_click active mid now uid letter =
      (AnswerOutcome.alreadyAnswered, active) := by
  have hk : uid ∈ st.answers.map Prod.fst := mem_keys_of_dictGet hl
  simp [handle_answer_click, hst, hexp, hk]

/-- Application of the already-answered theorem at a concrete input: a
participant with recorded label `"B"` clicking `"A"` again is rejected and
nothing changes. -/
theorem handle_answer_click_already_answered_witness :
    handle_answer_click
        (fun m => if m = 1 then some (QuizState.mk (Question.mk 1 "q" [] "A") 1 100 [(7, "B")]) else none)
        1 50 7 "A"
      = (AnswerOutcome.alreadyAnswered,
          fun m => if m = 1 then some (QuizState.mk (Question.mk 1 "q" [] "A") 1 100 [(7, "B")]) else none) :=
  handle_answer_click_already_answered _ 1 50 7 "A" _ "B" rfl (by decide) rfl

/-! ### Round closing (C5) -/

/-- C5: `conclude_quiz` is idempotent per round: a second invocation for the
same round finds the round's message id in `finished_messages` and returns
the state unchanged, so the tally and leaderboard update happen exactly
once. -/
theorem conclude_quiz_idem (today : String) (names : Nat → String)
    (cs : CloseState) (state : QuizState) :
    conclude_quiz today names (conclude_quiz today names cs state) state =
      conclude_quiz today names cs state := by
  by_cases h : state.message_id ∈ cs.finished_messages
  · simp [conclude_quiz, h]
  · simp [conclude_quiz, h]

/-! ### The tally (C3) -/

theorem award_winner_apply_ne (today : String) (names : Nat → String)
    (r : Ranking) (v u : Nat) (h : u ≠ v) :
    award_winner today names r v u = r u := by
  simp [award_winner, h]

theorem foldl_award_winner_not_mem (today : String) (names : Nat → String)
    (l : List Nat) (r : Ranking) (u : Nat) (h : u ∉ l) :
    l.foldl (award_winner today names) r u = r u := by
  induction l generalizing r with
  | nil => rfl
  | cons v t ih =>
    rw [List.mem_cons, not_or] at h
    rw [List.foldl_cons, ih _ h.2, award_winner_apply_ne _ _ _ _ _ h.1]

theorem award_winner_apply_self_congr (today : String) (names : Nat → String)
    (r r₂ : Ranking) (u : Nat) (h : r u = r₂ u) :
    award_winner today names r u u = award_winner today names r₂ u u := by
  simp [award_winner, h]

theorem foldl_award_winner_mem (today : String) (names : Nat → String)
    (l : List Nat) (r : Ranking) (u : Nat) (hnd : l.Nodup) (hu : u ∈ l) :
    l.foldl (award_winner today names) r u = award_winner today names r u u := by
  induction l generalizing r with
  | nil => cases hu
  | cons v t ih =>
    rw [List.nodup_cons] at hnd
    rw [List.foldl_cons]
    rcases List.mem_cons.mp hu with rfl | hmem
    · exact foldl_award_winner_not_mem _ _ _ _ _ hnd.1
    · have hvu : u ≠ v := by
        rintro rfl
        exact hnd.1 hmem
      rw [ih _ hnd.2 hmem]
      exact award_winner_apply_self_congr _ _ _ _ _
        (award_winner_apply_ne _ _ _ _ _ hvu)

theorem winners_nodup (state : QuizState)
    (hnd : (state.answers.map Prod.fst).Nodup) : (winners state).Nodup := by
  have hsub : List.Sublist
      ((state.answers.filter (fun p => p.2 = state.question.answer)).map Prod.fst)
      (state.answers.map Prod.fst) := (List.filter_sublist _).map _
  exact hnd.sublist hsub

theorem mem_winners_iff (state : QuizState)
    (hnd : (state.answers.map Prod.fst).Nodup) (u : Nat) :
    u ∈ winners state ↔ dictGet state.answers u = some state.question.answer := by
  constructor
  · intro hu
    rw [winners] at hu
    obtain ⟨p, hp, hp₁⟩ := List.mem_map.mp hu
    rw [List.mem_filter] at hp
    have hp₂ : p.2 = state.question.answer := by
      have := hp.2
      simpa using this
    have : p = (u, state.question.answer) := by
      obtain ⟨p₁, p₂⟩ := p
      simp_all
    rw [this] at hp
    exact dictGet_of_mem_nodup hnd hp.1
  · intro hu
    have hmem : (u, state.question.answer) ∈ state.answers := mem_of_dictGet hu
    rw [winners]
    refine List.mem_map.mpr ⟨(u, state.question.answer), ?_, rfl⟩
    rw [List.mem_filter]
    exact ⟨hmem, by simp⟩

/-- C3: closing a not-yet-finished round awards exactly the participants
whose recorded label equals the question's correct label: each winner's
total points and today's weekly and monthly daily counts all grow by exactly
1 and the winner's display name is refreshed; every non-winner's leaderboard
slot is untouched; and a round with no winners (in particular one with no
answers) changes no leaderboard slot at all. -/
theorem conclude_quiz_tally (today : String) (names : Nat → String)
    (cs cs₂ : CloseState) (state : QuizState)
    (hfresh : state.message_id ∉ cs.finished_messages)
    (hnd : (state.answers.map Prod.fst).Nodup)
    (hcs : cs₂ = conclude_quiz today names cs state) :
    (∀ u, u ∈ winners state ↔ dictGet state.answers u = some state.question.answer)
    ∧ (∀ u, u ∈ winners state →
        pointsOf (cs₂.ranking u) = pointsOf (cs.ranking u) + 1
        ∧ weeklyOf (cs₂.ranking u) today = weeklyOf (cs.ranking u) today + 1
        ∧ monthlyOf (cs₂.ranking u) today = monthlyOf (cs.ranking u) today + 1
        ∧ (cs₂.ranking u).map UserData.name = some (names u))
    ∧ (∀ u, u ∉ winners state → cs₂.ranking u = cs.ranking u)
    ∧ (winners state = [] → cs₂.ranking = cs.ranking) := by
  subst hcs
  have hrank : (conclude_quiz today names cs state).ranking =
      (winners state).foldl (award_winner today names) cs.ranking := by
    simp [conclude_quiz, hfresh]
  refine ⟨fun u => mem_winners_iff state hnd u, ?_, ?_, ?_⟩
  · intro u hu
    rw [hrank, foldl_award_winner_mem _ _ _ _ _ (winners_nodup state hnd) hu]
    cases hr : cs.ranking u <;>
      simp [award_winner, hr, pointsOf, weeklyOf, monthlyOf, dgetI_dsetI_self]
  · intro u hu
    rw [hrank, foldl_award_winner_not_mem _ _ _ _ _ hu]
  · intro h
    rw [hrank, h]
    rfl

/-- Application of the tally theorem at a concrete input: with answers
`{7 ↦ "A", 8 ↦ "B"}` and correct label `"A"`, participant 7 gains one point
and participant 8's (absent) slot is unchanged. -/
theorem conclude_quiz_tally_witness :
    pointsOf ((conclude_quiz "2026-10-12" (fun _ => "n")
        (CloseState.mk [] (fun _ => none))
        (QuizState.mk (Question.mk 1 "q" [] "A") 1 100 [(7, "A"), (8, "B")])).ranking 7)
      = pointsOf ((CloseState.mk [] (fun _ => none)).ranking 7) + 1
    ∧ (conclude_quiz "2026-10-12" (fun _ => "n")
        (CloseState.mk [] (fun _ => none))
        (QuizState.mk (Question.mk 1 "q" [] "A") 1 100 [(7, "A"), (8, "B")])).ranking 8
      = (CloseState.mk [] (fun _ => none)).ranking 8 := by
  have h := conclude_quiz_tally "2026-10-12" (fun _ => "n")
    (CloseState.mk [] (fun _ => none)) _
    (QuizState.mk (Question.mk 1 "q" [] "A") 1 100 [(7, "A"), (8, "B")])
    (by decide) (by decide) rfl
  exact ⟨(h.2.1 7 (by decide)).1, h.2.2.1 8 (by decide)⟩

/-! ### Label invariant (C10) -/

/-- `handle_answer_click` either leaves the round untouched or appends the
clicked letter for a fresh participant: the only two shapes the round can
have after a click. -/
theorem handle_answer_click_cases (active : Nat → Option QuizState) (mid : Nat)
    (now : Int) (uid : Nat) (letter : String) (st st₂ : QuizState)
    (hst : active mid = some st)
    (h : (handle_answer_click active mid now uid letter).2 mid = some st₂) :
    st₂ = st ∨ st₂ = { st with answers := st.answers ++ [(uid, letter)] } := by
  simp only [handle_answer_click, hst] at h
  split_ifs at h with h₁ h₂
  · have h₃ : active mid = some st₂ := h
    rw [hst] at h₃
    exact Or.inl (Option.some.inj h₃).symm
  · have h₃ : active mid = some st₂ := h
    rw [hst] at h₃
    exact Or.inl (Option.some.inj h₃).symm
  · dsimp only at h
    rw [if_pos rfl] at h
    exact Or.inr (Option.some.inj h).symm

/-- C10: every label ever recorded in a reachable round's `answers` mapping
is one of `"A"`, `"B"`, `"C"`, `"D"` — the four answer buttons are the only
writers and each passes its fixed letter. -/
theorem reachable_round_labels (st : QuizState) (h : ReachableRound st) :
    ∀ p ∈ st.answers, p.2 = "A" ∨ p.2 = "B" ∨ p.2 = "C" ∨ p.2 = "D" := by
  have hact : ∀ s : QuizState, singleActive s s.message_id = some s := by
    intro s
    simp [singleActive]
  induction h with
  | start q mid et => simp
  | clickA st now uid st₂ hst hstep ih =>
    rcases handle_answer_click_cases _ _ _ _ _ _ _ (hact st) hstep with rfl | rfl
    · exact ih
    · intro p hp
      rcases List.mem_append.mp hp with hp | hp
      · exact ih p hp
      · simp at hp
        simp [hp]
  | clickB st now uid st₂ hst hstep ih =>
    rcases handle_answer_click_cases _ _ _ _ _ _ _ (hact st) hstep with rfl | rfl
    · exact ih
    · intro p hp
      rcases List.mem_append.mp hp with hp | hp
      · exact ih p hp
      · simp at hp
        simp [hp]
  | clickC st now uid st₂ hst hstep ih =>
    rcases handle_answer_click_cases _ _ _ _ _ _ _ (hact st) hstep with rfl | rfl
    · exact ih
    · intro p hp
      rcases List.mem_append.mp hp with hp | hp
      · exact ih p hp
      · simp at hp
        simp [hp]
  | clickD st now uid st₂ hst hstep ih =>
    rcases handle_answer_click_cases _ _ _ _ _ _ _ (hact st) hstep with rfl | rfl
    · exact ih
    · intro p hp
      rcases List.mem_append.mp hp with hp | hp
      · exact ih p hp
      · simp at hp
        simp [hp]

/-- Application of the label invariant at a concrete reachable round: a
fresh round that received one `A` click carries the label `"A"`. -/
theorem reachable_round_labels_witness :
    ("A" : String) = "A" ∨ ("A" : String) = "B" ∨ ("A" : String) = "C" ∨ ("A" : String) = "D" :=
  reachable_round_labels
    (QuizState.mk (Question.mk 1 "q" [] "A") 1 100 [(7, "A")])
    (ReachableRound.clickA (QuizState.mk (Question.mk 1 "q" [] "A") 1 100 []) 50 7
      (QuizState.mk (Question.mk 1 "q" [] "A") 1 100 [(7, "A")])
      (ReachableRound.start (Question.mk 1 "q" [] "A") 1 100) (by decide))
    (7, "A") (by decide)

/-! ### Fifty-fifty (C6) -/

theorem kept_5050_mod (c : String) (pick : Nat) (swapped : Bool)
    (hlen : (["A", "B", "C", "D"].filter (fun x => x ≠ c)).length = 3) :
    kept_5050 c pick swapped = kept_5050 c (pick % 3) swapped := by
  simp only [kept_5050, hlen]
  have h : pick % 3 % 3 = pick % 3 := by omega
  rw [h]

/-- C6: for a round whose correct label is one of the four valid labels, the
fifty-fifty handler returns exactly two labels — the correct one plus one of
the three incorrect ones — in either order; every incorrect label is
reachable by some choice of the random index (uniform choice over three
candidates); and the handler leaves the round state, in particular its
`answers` mapping, untouched. -/
theorem btn_5050_props (st : QuizState) (pick : Nat) (swapped : Bool)
    (h : st.question.answer = "A" ∨ st.question.answer = "B" ∨
      st.question.answer = "C" ∨ st.question.answer = "D") :
    ((btn_5050 st pick swapped).1.length = 2
      ∧ st.question.answer ∈ (btn_5050 st pick swapped).1
      ∧ (∀ x ∈ (btn_5050 st pick swapped).1,
          x = "A" ∨ x = "B" ∨ x = "C" ∨ x = "D")
      ∧ (∃ x ∈ (btn_5050 st pick swapped).1, x ≠ st.question.answer))
    ∧ (∀ w ∈ (["A", "B", "C", "D"] : List String), w ≠ st.question.answer →
        ∃ j ∈ ([0, 1, 2] : List Nat),
          (btn_5050 st j false).1 = [st.question.answer, w])
    ∧ (btn_5050 st pick swapped).2 = st := by
  have key : ∀ c ∈ (["A", "B", "C", "D"] : List String),
      ∀ j ∈ ([0, 1, 2] : List Nat), ∀ s : Bool,
      (kept_5050 c j s).length = 2 ∧ c ∈ kept_5050 c j s
      ∧ (∀ x ∈ kept_5050 c j s, x = "A" ∨ x = "B" ∨ x = "C" ∨ x = "D")
      ∧ (∃ x ∈ kept_5050 c j s, x ≠ c)
      ∧ (∀ w ∈ (["A", "B", "C", "D"] : List String), w ≠ c →
          ∃ jj ∈ ([0, 1, 2] : List Nat), kept_5050 c jj false = [c, w]) := by
    decide
  have hc : st.question.answer ∈ (["A", "B", "C", "D"] : List String) := by
    rcases h with h | h | h | h <;> simp [h]
  have hlen : (["A", "B", "C", "D"].filter (fun x => x ≠ st.question.answer)).length = 3 := by
    rcases h with h | h | h | h <;> rw [h] <;> decide
  have hj : pick % 3 ∈ ([0, 1, 2] : List Nat) := by
    have h₃ : pick % 3 < 3 := Nat.mod_lt _ (by omega)
    simp only [List.mem_cons, List.not_mem_nil, or_false]
    omega
  have e : (btn_5050 st pick swapped).1 =
      kept_5050 st.question.answer (pick % 3) swapped :=
    kept_5050_mod st.question.answer pick swapped hlen
  have k := key st.question.answer hc (pick % 3) hj swapped
  rw [e]
  refine ⟨⟨k.1, k.2.1, k.2.2.1, k.2.2.2.1⟩, ?_, rfl⟩
  intro w hw hwc
  obtain ⟨jj, hjj, hkept⟩ := k.2.2.2.2 w hw hwc
  exact ⟨jj, hjj, hkept⟩

/-- Application of the fifty-fifty theorem at a concrete input: with correct
label `"A"`, index 5 and a swapping shuffle, the surviving pair has length 2
and contains `"A"`. -/
theorem btn_5050_props_witness :
    (btn_5050 (QuizState.mk (Question.mk 1 "q" [] "A") 1 100 [(7, "B")]) 5 true).1.length = 2
    ∧ ("A" : String) ∈ (btn_5050 (QuizState.mk (Question.mk 1 "q" [] "A") 1 100 [(7, "B")]) 5 true).1
    ∧ (btn_5050 (QuizState.mk (Question.mk 1 "q" [] "A") 1 100 [(7, "B")]) 5 true).2
      = QuizState.mk (Question.mk 1 "q" [] "A") 1 100 [(7, "B")] := by
  have h := btn_5050_props (QuizState.mk (Question.mk 1 "q" [] "A") 1 100 [(7, "B")]) 5 true
    (by decide)
  exact ⟨h.1.1, h.1.2.1, h.2.2⟩

/-! ### Audience percentages (C7) -/

theorem countLabel_cons (p : Nat × String) (rest : List (Nat × String))
    (k : String) :
    countLabel (p :: rest) k = (if p.2 = k then 1 else 0) + countLabel rest k := by
  rw [countLabel, List.filter_cons]
  by_cases h : p.2 = k
  · rw [if_pos (by simp [h]), if_pos h, List.length_cons, countLabel]
    omega
  · rw [if_neg (by simp [h]), if_neg h, countLabel]
    omega

theorem countLabel_sum (answers : List (Nat × String))
    (h : ∀ p ∈ answers, p.2 = "A" ∨ p.2 = "B" ∨ p.2 = "C" ∨ p.2 = "D") :
    countLabel answers "A" + countLabel answers "B" + countLabel answers "C"
      + countLabel answers "D" = answers.length := by
  induction answers with
  | nil => rfl
  | cons p rest ih =>
    have hp := h p (List.mem_cons_self _ _)
    have hr := ih (fun q hq => h q (List.mem_cons_of_mem _ hq))
    rw [countLabel_cons, countLabel_cons, countLabel_cons, countLabel_cons,
      List.length_cons]
    rcases hp with hp | hp | hp | hp <;> rw [hp] <;> simp <;> omega

theorem audience_counts_foldl (answers : List (Nat × String)) :
    (audience_counts answers).foldl (fun s p => s + p.2) 0 =
      countLabel answers "A" + countLabel answers "B" + countLabel answers "C"
        + countLabel answers "D" := by
  simp [audience_counts]

theorem audience_total_eq (answers : List (Nat × String))
    (h : ∀ p ∈ answers, p.2 = "A" ∨ p.2 = "B" ∨ p.2 = "C" ∨ p.2 = "D")
    (hne : answers ≠ []) : audience_total answers = answers.length := by
  have hz : answers.length ≠ 0 := by
    simpa [List.length_eq_zero] using hne
  rw [audience_total, audience_counts_foldl, countLabel_sum answers h, if_neg hz]

/-- The rounding error of `round_div` is at most one half, for a positive
denominator. -/
theorem round_div_abs_le (a b : Int) (hb : 0 < b) :
    |(round_div a b : Rat) - (a : Rat) / (b : Rat)| ≤ 1 / 2 := by
  have hbQ : (0 : Rat) < (b : Rat) := by exact_mod_cast hb
  have hbne : ((b : Rat)) ≠ 0 := ne_of_gt hbQ
  have hq := Int.ediv_add_emod a b
  have hr0 : (0 : Int) ≤ a % b := Int.emod_nonneg a (by omega)
  have hrb : a % b < b := Int.emod_lt_of_pos a hb
  have haq : (a : Rat) = (b : Rat) * ((a / b : Int) : Rat) + ((a % b : Int) : Rat) := by
    exact_mod_cast hq.symm
  have ha : (a : Rat) / (b : Rat) =
      ((a / b : Int) : Rat) + ((a % b : Int) : Rat) / (b : Rat) := by
    rw [haq]
    field_simp
    ring
  have hr0Q : (0 : Rat) ≤ ((a % b : Int) : Rat) := by exact_mod_cast hr0
  have hrbQ : ((a % b : Int) : Rat) < (b : Rat) := by exact_mod_cast hrb
  rw [round_div]
  split_ifs with h₁ h₂ h₃
  · have hx : ((a % b : Int) : Rat) / (b : Rat) < 1 / 2 := by
      rw [div_lt_iff hbQ]
      have : (2 : Rat) * ((a % b : Int) : Rat) < (b : Rat) := by exact_mod_cast h₁
      linarith
    have hx0 : (0 : Rat) ≤ ((a % b : Int) : Rat) / (b : Rat) :=
      div_nonneg hr0Q hbQ.le
    rw [ha]
    have he : ((a / b : Int) : Rat) -
        (((a / b : Int) : Rat) + ((a % b : Int) : Rat) / (b : Rat)) =
        -(((a % b : Int) : Rat) / (b : Rat)) := by ring
    rw [he, abs_neg, abs_of_nonneg hx0]
    linarith
  · have hx : (1 : Rat) / 2 < ((a % b : Int) : Rat) / (b : Rat) := by
      rw [lt_div_iff hbQ]
      have : (b : Rat) < 2 * ((a % b : Int) : Rat) := by exact_mod_cast h₂
      linarith
    have hx1 : ((a % b : Int) : Rat) / (b : Rat) < 1 := by
      rw [div_lt_one hbQ]
      exact hrbQ
    rw [ha]
    push_cast
    have he : ((a / b : Int) : Rat) + 1 -
        (((a / b : Int) : Rat) + ((a % b : Int) : Rat) / (b : Rat)) =
        1 - ((a % b : Int) : Rat) / (b : Rat) := by ring
    rw [he, abs_of_nonneg (by linarith)]
    linarith
  · have hx : ((a % b : Int) : Rat) / (b : Rat) = 1 / 2 := by
      rw [div_eq_iff hbne]
      have : (2 : Rat) * ((a % b : Int) : Rat) = (b : Rat) := by
        exact_mod_cast le_antisymm (by omega) (by omega)
      linarith
    rw [ha]
    have he : ((a / b : Int) : Rat) -
        (((a / b : Int) : Rat) + ((a % b : Int) : Rat) / (b : Rat)) =
        -(((a % b : Int) : Rat) / (b : Rat)) := by ring
    rw [he, abs_neg, hx, abs_of_nonneg (by norm_num)]
  · have hx : ((a % b : Int) : Rat) / (b : Rat) = 1 / 2 := by
      rw [div_eq_iff hbne]
      have : (2 : Rat) * ((a % b : Int) : Rat) = (b : Rat) := by
        exact_mod_cast le_antisymm (by omega) (by omega)
      linarith
    rw [ha]
    push_cast
    have he : ((a / b : Int) : Rat) + 1 -
        (((a / b : Int) : Rat) + ((a % b : Int) : Rat) / (b : Rat)) =
        1 - ((a % b : Int) : Rat) / (b : Rat) := by ring
    rw [he, hx, abs_of_nonneg (by norm_num)]
    norm_num

theorem four_round_div_sum (a₁ a₂ a₃ a₄ b : Int) (hb : 0 < b)
    (hsum : a₁ + a₂ + a₃ + a₄ = 100 * b) :
    |round_div a₁ b + (round_div a₂ b + (round_div a₃ b + (round_div a₄ b + 0))) - 100| ≤ 3 := by
  have hbQ : (0 : Rat) < (b : Rat) := by exact_mod_cast hb
  have hbne : ((b : Rat)) ≠ 0 := ne_of_gt hbQ
  have h₁ := round_div_abs_le a₁ b hb
  have h₂ := round_div_abs_le a₂ b hb
  have h₃ := round_div_abs_le a₃ b hb
  have h₄ := round_div_abs_le a₄ b hb
  have hq : (a₁ : Rat) / (b : Rat) + (a₂ : Rat) / (b : Rat) + (a₃ : Rat) / (b : Rat)
      + (a₄ : Rat) / (b : Rat) = 100 := by
    rw [div_add_div_same, div_add_div_same, div_add_div_same]
    have hn : ((a₁ : Rat) + a₂ + a₃ + a₄) = 100 * (b : Rat) := by exact_mod_cast hsum
    rw [hn, mul_div_assoc, div_self hbne, mul_one]
  set x₁ : Rat := ((round_div a₁ b : Int) : Rat) - (a₁ : Rat) / (b : Rat) with hx₁
  set x₂ : Rat := ((round_div a₂ b : Int) : Rat) - (a₂ : Rat) / (b : Rat) with hx₂
  set x₃ : Rat := ((round_div a₃ b : Int) : Rat) - (a₃ : Rat) / (b : Rat) with hx₃
  set x₄ : Rat := ((round_div a₄ b : Int) : Rat) - (a₄ : Rat) / (b : Rat) with hx₄
  have habs : |((round_div a₁ b + (round_div a₂ b + (round_div a₃ b
      + (round_div a₄ b + 0))) - 100 : Int) : Rat)| ≤ 2 := by
    have he : ((round_div a₁ b + (round_div a₂ b + (round_div a₃ b
        + (round_div a₄ b + 0))) - 100 : Int) : Rat) = x₁ + (x₂ + (x₃ + x₄)) := by
      rw [hx₁, hx₂, hx₃, hx₄]
      push_cast
      linarith [hq]
    rw [he]
    linarith [abs_add x₁ (x₂ + (x₃ + x₄)), abs_add x₂ (x₃ + x₄), abs_add x₃ x₄,
      h₁, h₂, h₃, h₄]
  have hI : |round_div a₁ b + (round_div a₂ b + (round_div a₃ b
      + (round_div a₄ b + 0))) - 100| ≤ (2 : Int) := by exact_mod_cast habs
  linarith

theorem audience_sum_bound (answers : List (Nat × String))
    (h : ∀ p ∈ answers, p.2 = "A" ∨ p.2 = "B" ∨ p.2 = "C" ∨ p.2 = "D")
    (hne : answers ≠ []) :
    |((audience_perc answers).map Prod.snd).sum - 100| ≤ 3 := by
  have hlen0 : 0 < answers.length := List.length_pos.mpr hne
  have htot : audience_total answers = answers.length := audience_total_eq answers h hne
  have hnpos : (0 : Int) < (audience_total answers : Int) := by
    rw [htot]
    exact_mod_cast hlen0
  have hsum4 : (countLabel answers "A" : Int) + (countLabel answers "B" : Int)
      + (countLabel answers "C" : Int) + (countLabel answers "D" : Int)
      = (audience_total answers : Int) := by
    rw [htot]
    exact_mod_cast countLabel_sum answers h
  simp only [audience_perc, audience_counts, List.map_cons, List.map_nil,
    List.sum_cons, List.sum_nil]
  exact four_round_div_sum _ _ _ _ _ hnpos (by omega)

/-- C7: the audience lifeline is read-only over the round state; with zero
answers the denominator defaults to 1 and every percentage is 0; and with at
least one (valid-labelled) answer the denominator is the total answer count
and the four independently rounded percentages sum to 100 up to a total
rounding deviation of at most 3. -/
theorem audience_props (st : QuizState) :
    (btn_audience st).2 = st
    ∧ (st.answers = [] →
        audience_total st.answers = 1
        ∧ audience_perc st.answers = [("A", 0), ("B", 0), ("C", 0), ("D", 0)])
    ∧ ((∀ p ∈ st.answers, p.2 = "A" ∨ p.2 = "B" ∨ p.2 = "C" ∨ p.2 = "D") →
        st.answers ≠ [] →
        audience_total st.answers = st.answers.length
        ∧ |((audience_perc st.answers).map Prod.snd).sum - 100| ≤ 3) := by
  refine ⟨rfl, ?_, ?_⟩
  · intro h
    rw [h]
    exact ⟨rfl, rfl⟩
  · intro hlab hne
    exact ⟨audience_total_eq st.answers hlab hne, audience_sum_bound st.answers hlab hne⟩

/-- Application of the audience theorem at a concrete input: one `A` answer
and one `D` answer yield denominator 2 and percentages summing inside the
tolerance. -/
theorem audience_props_witness :
    audience_total (QuizState.mk (Question.mk 1 "q" [] "A") 1 100 [(7, "A"), (8, "D")]).answers = 2
    ∧ |((audience_perc (QuizState.mk (Question.mk 1 "q" [] "A") 1 100 [(7, "A"), (8, "D")]).answers).map Prod.snd).sum - 100| ≤ 3
    ∧ (btn_audience (QuizState.mk (Question.mk 1 "q" [] "A") 1 100 [(7, "A"), (8, "D")])).2
      = QuizState.mk (Question.mk 1 "q" [] "A") 1 100 [(7, "A"), (8, "D")] := by
  have h := audience_props (QuizState.mk (Question.mk 1 "q" [] "A") 1 100 [(7, "A"), (8, "D")])
  have h₂ := h.2.2 (by decide) (by decide)
  exact ⟨by rw [h₂.1]; rfl, h₂.2, h.1⟩

/-! ### Phone-a-friend (C8) -/

/-- C8: on a live round with a clear cooldown, phoning a target with no
recorded answer reports "unavailable" and writes no `lifelines_usage` row
(the lifeline is not consumed); phoning a target with a recorded label
reveals that label and writes exactly one row, dated `now`, for the caller
and the `"telefon"` kind. -/
theorem slash_telefon_props (st : QuizState) (now : Int) (caller friend : Nat)
    (lastUsed : Option Int) (hexp : ¬ now > st.end_time)
    (hcd : lifeline_check_cooldown lastUsed now = none) :
    (dictGet st.answers friend = none →
      slash_telefon (some st) now caller friend lastUsed =
        (PhoneOutcome.unavailable, []))
    ∧ (∀ l, dictGet st.answers friend = some l →
        (l = "A" ∨ l = "B" ∨ l = "C" ∨ l = "D") →
        slash_telefon (some st) now caller friend lastUsed =
          (PhoneOutcome.revealed l, [CooldownRecord.mk caller "telefon" now])) := by
  constructor
  · intro h
    simp [slash_telefon, hexp, hcd, h]
  · intro l hl hlv
    have hne : l ≠ "" := by
      rcases hlv with h | h | h | h <;> simp [h]
    simp [slash_telefon, hexp, hcd, hl, hne]

/-- Application of the phone-a-friend theorem at a concrete input: target 9
has not answered (no row written), target 7 answered `"A"` (one row written
for the caller, dated now). -/
theorem slash_telefon_props_witness :
    slash_telefon (some (QuizState.mk (Question.mk 1 "q" [] "A") 1 100 [(7, "A")]))
        50 9 8 none = (PhoneOutcome.unavailable, [])
    ∧ slash_telefon (some (QuizState.mk (Question.mk 1 "q" [] "A") 1 100 [(7, "A")]))
        50 9 7 none
      = (PhoneOutcome.revealed "A", [CooldownRecord.mk 9 "telefon" 50]) := by
  constructor
  · exact (slash_telefon_props (QuizState.mk (Question.mk 1 "q" [] "A") 1 100 [(7, "A")])
      50 9 8 none (by decide) rfl).1 rfl
  · exact (slash_telefon_props (QuizState.mk (Question.mk 1 "q" [] "A") 1 100 [(7, "A")])
      50 9 7 none (by decide) rfl).2 "A" rfl (by decide)

/-! ### Scheduler (C9) -/

theorem quiz_fire_step_preserves (now_sec : Int) (ok : Bool) (k : String)
    (times : List (Nat × Nat)) :
    ∀ acc : SchedulerState × List String,
      k ∈ acc.1.fired_today → k ∉ acc.2 →
      k ∈ (times.foldl (quiz_fire_step now_sec ok) acc).1.fired_today
      ∧ k ∉ (times.foldl (quiz_fire_step now_sec ok) acc).2 := by
  induction times with
  | nil =>
    intro acc h₁ h₂
    exact ⟨h₁, h₂⟩
  | cons t rest ih =>
    intro acc h₁ h₂
    rw [List.foldl_cons]
    have hstep : k ∈ (quiz_fire_step now_sec ok acc t).1.fired_today
        ∧ k ∉ (quiz_fire_step now_sec ok acc t).2 := by
      rw [quiz_fire_step]
      split_ifs with hc hok
      · refine ⟨List.mem_cons_of_mem _ h₁, ?_⟩
        intro hmem
        rcases List.mem_append.mp hmem with hm | hm
        · exact h₂ hm
        · rw [List.mem_singleton] at hm
          rw [hm] at h₁
          exact hc.2 h₁
      · exact ⟨h₁, h₂⟩
      · exact ⟨h₁, h₂⟩
    exact ih _ hstep.1 hstep.2

/-- C9: the scheduler fires each configured slot at most once per day: a
tick inside the strict ±2-minute window of an unfired slot starts the round
and marks the slot; a marked slot is never fired again by any later tick of
the same day, whatever the tick time; the fired set is reset when the
observed date rolls over; and ticking at 09:59, 10:00, 10:01 and 10:02 for
fire time 10:00 starts exactly one round, at the 09:59 tick. -/
theorem daily_quiz_task_props :
    (∀ (hh mm : Nat) (st : SchedulerState) (d s : Int),
      st.last_reset_date = some d →
      |s - ((hh : Int) * 3600 + (mm : Int) * 60)| < 120 →
      fmtKey hh mm ∉ st.fired_today →
      daily_quiz_task_tick [(hh, mm)] st d s true =
        (SchedulerState.mk (fmtKey hh mm :: st.fired_today) (some d), [fmtKey hh mm]))
    ∧ (∀ (times : List (Nat × Nat)) (st : SchedulerState) (d s : Int) (ok : Bool)
        (k : String), st.last_reset_date = some d → k ∈ st.fired_today →
        k ∈ (daily_quiz_task_tick times st d s ok).1.fired_today
        ∧ k ∉ (daily_quiz_task_tick times st d s ok).2)
    ∧ (∀ (times : List (Nat × Nat)) (st : SchedulerState) (d s : Int) (ok : Bool),
        st.last_reset_date ≠ some d →
        daily_quiz_task_tick times st d s ok =
          daily_quiz_task_tick times (SchedulerState.mk [] (some d)) d s ok)
    ∧ ((daily_quiz_task_tick [(10, 0)] (SchedulerState.mk [] (some 0)) 0 (9 * 3600 + 59 * 60) true).2
        ++ (daily_quiz_task_tick [(10, 0)]
              (daily_quiz_task_tick [(10, 0)] (SchedulerState.mk [] (some 0)) 0 (9 * 3600 + 59 * 60) true).1
              0 (10 * 3600) true).2
        ++ (daily_quiz_task_tick [(10, 0)]
              (daily_quiz_task_tick [(10, 0)]
                (daily_quiz_task_tick [(10, 0)] (SchedulerState.mk [] (some 0)) 0 (9 * 3600 + 59 * 60) true).1
                0 (10 * 3600) true).1
              0 (10 * 3600 + 60) true).2
        ++ (daily_quiz_task_tick [(10, 0)]
              (daily_quiz_task_tick [(10, 0)]
                (daily_quiz_task_tick [(10, 0)]
                  (daily_quiz_task_tick [(10, 0)] (SchedulerState.mk [] (some 0)) 0 (9 * 3600 + 59 * 60) true).1
                  0 (10 * 3600) true).1
                0 (10 * 3600 + 60) true).1
              0 (10 * 3600 + 120) true).2) = ["10:00"] := by
  refine ⟨?_, ?_, ?_, by decide⟩
  · intro hh mm st d s hr hw hn
    rw [daily_quiz_task_tick]
    have hreset : (if st.last_reset_date ≠ some d then SchedulerState.mk [] (some d) else st) = st := by
      rw [if_neg]
      simp [hr]
    rw [hreset, List.foldl_cons, List.foldl_nil, quiz_fire_step]
    rw [if_pos ⟨hw, hn⟩, if_pos rfl]
    simp [hr]
  · intro times st d s ok k hr hk
    rw [daily_quiz_task_tick]
    have hreset : (if st.last_reset_date ≠ some d then SchedulerState.mk [] (some d) else st) = st := by
      rw [if_neg]
      simp [hr]
    rw [hreset]
    exact quiz_fire_step_preserves s ok k times (st, []) hk (by simp)
  · intro times st d s ok hd
    rw [daily_quiz_task_tick, daily_quiz_task_tick]
    rw [if_pos hd, if_neg (by simp)]

/-- Application of the scheduler theorem at concrete inputs: a fresh 10:00
slot fires at the 09:59 tick, and a marked slot does not fire again at
10:01. -/
theorem daily_quiz_task_props_witness :
    daily_quiz_task_tick [(10, 0)] (SchedulerState.mk [] (some 0)) 0 (9 * 3600 + 59 * 60) true
      = (SchedulerState.mk ["10:00"] (some 0), ["10:00"])
    ∧ "10:00" ∉ (daily_quiz_task_tick [(10, 0)] (SchedulerState.mk ["10:00"] (some 0)) 0 (10 * 3600 + 60) true).2 := by
  constructor
  · have h := daily_quiz_task_props.1 10 0 (SchedulerState.mk [] (some 0)) 0
      (9 * 3600 + 59 * 60) rfl (by decide) (by decide)
    rw [h]
    rfl
  · exact (daily_quiz_task_props.2.1 [(10, 0)] (SchedulerState.mk ["10:00"] (some 0)) 0
      (10 * 3600 + 60) true "10:00" rfl (by decide)).2

/-! ### Round start (C1) -/

/-- C1 (amended): `run_quiz` performs no per-channel open-round check and
has no `AlreadyActive` outcome: serialised by the global lock, it always
creates a fresh round, registers it in `active_quizzes` under the new
message id, and overwrites the channel's `last_quiz_id_per_channel` pointer,
while every previously registered round — including an open one on the same
channel — stays registered untouched. -/
theorem run_quiz_registers (g : GlobalState) (channel_id : Nat)
    (questions : List Question) (used : List Nat) (pick : Nat) (msg_id : Nat)
    (now : Int) :
    (run_quiz g channel_id questions used pick msg_id now).last_quiz_id_per_channel channel_id
      = some msg_id
    ∧ (run_quiz g channel_id questions used pick msg_id now).active_quizzes msg_id
      = some (QuizState.mk (choose_question questions used pick) msg_id
          (now + QUIZ_DURATION_SECONDS) [])
    ∧ (∀ m, m ≠ msg_id →
        (run_quiz g channel_id questions used pick msg_id now).active_quizzes m
          = g.active_quizzes m)
    ∧ (∀ c, c ≠ channel_id →
        (run_quiz g channel_id questions used pick msg_id now).last_quiz_id_per_channel c
          = g.last_quiz_id_per_channel c) := by
  refine ⟨by simp [run_quiz], by simp [run_quiz], ?_, ?_⟩
  · intro m hm
    simp [run_quiz, hm]
  · intro c hc
    simp [run_quiz, hc]

/-- Application of the run_quiz theorem at a concrete input: starting on
channel 5 with fresh message id 2 registers the new round and overwrites the
channel pointer, leaving message 1's round registered. -/
theorem run_quiz_registers_witness :
    (run_quiz (GlobalState.mk (fun c => if c = 5 then some 1 else none)
        (fun m => if m = 1 then some (QuizState.mk (Question.mk 1 "q" [] "A") 1 900 []) else none))
        5 [Question.mk 1 "q" [] "A"] [] 0 2 0).last_quiz_id_per_channel 5 = some 2
    ∧ (run_quiz (GlobalState.mk (fun c => if c = 5 then some 1 else none)
        (fun m => if m = 1 then some (QuizState.mk (Question.mk 1 "q" [] "A") 1 900 []) else none))
        5 [Question.mk 1 "q" [] "A"] [] 0 2 0).active_quizzes 1
      = some (QuizState.mk (Question.mk 1 "q" [] "A") 1 900 []) := by
  have h := run_quiz_registers (GlobalState.mk (fun c => if c = 5 then some 1 else none)
    (fun m => if m = 1 then some (QuizState.mk (Question.mk 1 "q" [] "A") 1 900 []) else none))
    5 [Question.mk 1 "q" [] "A"] [] 0 2 0
  exact ⟨h.1, by rw [h.2.2.1 1 (by decide)]; rfl⟩

/-- C1 refutation at a concrete input: with a round (message 1) already open
on channel 5, a second `run_quiz` on channel 5 does not fail — it registers
a second round (message 2) while the first stays open, and repoints the
channel at the new round, so two rounds are simultaneously registered for
one channel. -/
theorem run_quiz_second_round_counterexample :
    (run_quiz (run_quiz (GlobalState.mk (fun _ => none) (fun _ => none))
        5 [Question.mk 1 "q" [] "A"] [] 0 1 0)
        5 [Question.mk 1 "q" [] "A"] [] 0 2 0).active_quizzes 1
      = some (QuizState.mk (Question.mk 1 "q" [] "A") 1 900 [])
    ∧ (run_quiz (run_quiz (GlobalState.mk (fun _ => none) (fun _ => none))
        5 [Question.mk 1 "q" [] "A"] [] 0 1 0)
        5 [Question.mk 1 "q" [] "A"] [] 0 2 0).active_quizzes 2
      = some (QuizState.mk (Question.mk 1 "q" [] "A") 2 900 [])
    ∧ (run_quiz (run_quiz (GlobalState.mk (fun _ => none) (fun _ => none))
        5 [Question.mk 1 "q" [] "A"] [] 0 1 0)
        5 [Question.mk 1 "q" [] "A"] [] 0 2 0).last_quiz_id_per_channel 5 = some 2 := by
  refine ⟨?_, ?_, ?_⟩ <;> rfl
